import Mathlib

/-!
Verification development for the SpacesOverlay repository: a shallow embedding of
the membership state machine (prism/overlay/process_event.py), the autodenick
heuristic (prism/overlay/behaviour.py), the stats sorting (prism/overlay/player.py),
the nick database (examples/sidelay/nick_database.py) and the rate limiter,
together with theorems settling the claims about them.
-/

namespace SpacesOverlay

/-! ### Players (prism/overlay/player.py) -/

/-- Stats of a known player (class Stats in prism/overlay/player.py).
Floating point stat values are embedded as rationals. -/
structure Stats where
  fkdr : ℚ
  wlr : ℚ
  winstreak : Option ℤ
  winstreak_accurate : Bool
deriving DecidableEq

/-- Player union from prism/overlay/player.py: KnownPlayer, NickedPlayer and
PendingPlayer, with the fields the claims need. -/
inductive Player
  | known (username : String) (uuid : String) (stars : ℚ) (stats : Stats)
      (nick : Option String)
  | nicked (nick : String)
  | pending (username : String)
deriving DecidableEq

/-- Display name of a player: KnownPlayer.username, NickedPlayer.username
(which returns the nick) and PendingPlayer.username. -/
def Player.username : Player → String
  | .known u _ _ _ _ => u
  | .nicked n => n
  | .pending u => u

/-- The stats_hidden property of each player variant: true only for NickedPlayer. -/
def Player.stats_hidden : Player → Bool
  | .known _ _ _ _ _ => false
  | .nicked _ => true
  | .pending _ => false

/-! ### Membership state (class OverlayState, used by process_event) -/

/-- Modelled from the spec: the immutable MembershipState snapshot of spec section 3.
The class OverlayState of prism/overlay/state.py is not among the sources; its
fields are the ones the spec lists and that process_event reads. -/
structure OverlayState where
  own_username : Option String
  party_members : Finset String
  lobby_players : Finset String
  alive_players : Finset String
  in_queue : Bool
  out_of_sync : Bool
deriving DecidableEq

namespace OverlayState

/-- Modelled from the spec: PartyDetach clears the party to empty
(state.py is not among the sources). -/
def clear_party (s : OverlayState) : OverlayState :=
  { s with party_members := ∅ }

/-- Modelled from the spec: add one identity to the party (state.py is missing). -/
def add_to_party (s : OverlayState) (u : String) : OverlayState :=
  { s with party_members := insert u s.party_members }

/-- Modelled from the spec: remove one identity from the party (state.py is missing). -/
def remove_from_party (s : OverlayState) (u : String) : OverlayState :=
  { s with party_members := s.party_members.erase u }

/-- Modelled from the spec: clear the lobby (state.py is missing). The spec only
says the lobby set is cleared, so the alive set is left untouched. -/
def clear_lobby (s : OverlayState) : OverlayState :=
  { s with lobby_players := ∅ }

/-- Modelled from the spec: replace the lobby wholesale with the given identities
(state.py is missing). -/
def set_lobby (s : OverlayState) (usernames : List String) : OverlayState :=
  { s with lobby_players := usernames.toFinset }

/-- Modelled from the spec: add one identity to the lobby (state.py is missing). -/
def add_to_lobby (s : OverlayState) (u : String) : OverlayState :=
  { s with lobby_players := insert u s.lobby_players }

/-- Modelled from the spec: remove one identity from the lobby (state.py is missing). -/
def remove_from_lobby (s : OverlayState) (u : String) : OverlayState :=
  { s with lobby_players := s.lobby_players.erase u }

/-- Modelled from the spec: set in_queue (state.py is missing). -/
def join_queue (s : OverlayState) : OverlayState :=
  { s with in_queue := true }

/-- Modelled from the spec: clear in_queue (state.py is missing). -/
def leave_queue (s : OverlayState) : OverlayState :=
  { s with in_queue := false }

/-- Modelled from the spec: set the out_of_sync flag (state.py is missing). -/
def set_out_of_sync (s : OverlayState) (b : Bool) : OverlayState :=
  { s with out_of_sync := b }

/-- Modelled from the spec: a final kill or disconnect removes the identity from
the alive set only (state.py is missing). -/
def mark_dead (s : OverlayState) (u : String) : OverlayState :=
  { s with alive_players := s.alive_players.erase u }

/-- Modelled from the spec: a reconnect adds the identity back to the alive set
(state.py is missing). -/
def mark_alive (s : OverlayState) (u : String) : OverlayState :=
  { s with alive_players := insert u s.alive_players }

end OverlayState

/-! ### Events (prism/overlay/events.py, as consumed by process_event) -/

/-- Event kinds handled by process_event (prism/overlay/process_event.py), with the
payload fields each branch reads. -/
inductive Event
  | init_as (username : String)
  | new_nickname (nick : String)
  | lobby_swap
  | lobby_list (usernames : List String)
  | lobby_join (username : String) (player_count : Nat) (player_cap : Nat)
  | lobby_leave (username : String)
  | party_detach
  | party_attach (username : String)
  | party_join (usernames : List String)
  | party_leave (usernames : List String)
  | party_list_incoming
  | party_role_list (role : String) (usernames : List String)
  | bedwars_game_starting_soon (seconds : Nat)
  | start_bedwars_game
  | bedwars_final_kill (dead_player : String)
  | bedwars_disconnect (username : String)
  | bedwars_reconnect (username : String)
  | end_bedwars_game
  | whisper_command_set_nick (username : String) (nick : String)
deriving DecidableEq

/-- True exactly on the INITIALIZE_AS event kind. -/
def Event.isInitAs : Event → Bool
  | .init_as _ => true
  | _ => false

/-! ### Controller (the portion of OverlayController that the claims need) -/

/-- Modelled from the spec: the slice of the controller context read by
process_event and autodenick_teammate (controller.py is not among the sources).
The cache field is the long-term tier view of the PlayerCache: get_cached_player
with long_term set. -/
structure Controller where
  state : OverlayState
  api_key_invalid : Bool
  autodenick_teammates : Bool
  wants_shown : Option Bool
  cache : String → Option Player

/-- True for a cache entry holding a PendingPlayer. -/
def cache_entry_pending : Option Player → Bool
  | some (.pending _) => true
  | _ => false

/-- The nickname of a cache entry holding a NickedPlayer, none otherwise. -/
def cache_entry_nick : Option Player → Option String
  | some (.nicked n) => some n
  | _ => none

/-- The nicknames of the NickedPlayer entries found when scanning the lobby
players through the long-term cache, in sorted lobby order. The scan in
autodenick_teammate (behaviour.py lines 289-314) is order independent, so it is
expressed over the sorted list of lobby players. -/
def lobby_nick_scan (c : Controller) : List String :=
  (c.state.lobby_players.sort (· ≤ ·)).filterMap (fun p => cache_entry_nick (c.cache p))

/-- Translation of autodenick_teammate (prism/overlay/behaviour.py lines 242-325).
Returns the (teammate, nick) pair passed to set_nickname when the heuristic
fires, and none when any of its abort conditions hits: invalid API key, in
queue, out of sync, not exactly one missing teammate, lobby size not 8, 12 or 16,
lobby different from the alive set, a missing or pending cache entry, or not
exactly one unknown nick in the lobby. -/
def autodenick_teammate (c : Controller) : Option (String × String) :=
  if c.api_key_invalid || c.state.in_queue || c.state.out_of_sync then none
  else
    match (c.state.party_members \ c.state.lobby_players).sort (· ≤ ·) with
    | [teammate] =>
      let lobby_size := c.state.lobby_players.card
      if lobby_size ≠ 8 ∧ lobby_size ≠ 12 ∧ lobby_size ≠ 16 then none
      else if c.state.lobby_players ≠ c.state.alive_players then none
      else
        let lobby := c.state.lobby_players.sort (· ≤ ·)
        if lobby.any (fun p => (c.cache p).isNone) then none
        else if lobby.any (fun p => cache_entry_pending (c.cache p)) then none
        else
          match lobby_nick_scan c with
          | [n] => some (teammate, n)
          | _ => none
    | _ => none

/-- Result of one call to process_event: the new state and redraw flag it
returns, plus the side effects it performs on the controller: the set_nickname
calls (as username, nick pairs, in order), the assignment to
controller.wants_shown if any, and whether bedwars_game_ended was called. -/
structure ProcessResult where
  state : OverlayState
  redraw : Bool
  denicks : List (String × String)
  wants_shown : Option (Option Bool)
  game_ended : Bool

/-- Translation of process_event (prism/overlay/process_event.py lines 18-236).
Each branch mirrors one EventType case of the source. -/
def process_event (c : Controller) (e : Event) : ProcessResult :=
  match e with
  | .init_as username =>
    let new_state :=
      { c.state with own_username := some username, in_queue := false, out_of_sync := false }
    ⟨(new_state.clear_party).clear_lobby, true, [], none, false⟩
  | .new_nickname nick =>
    match c.state.own_username with
    | none => ⟨c.state, false, [], none, false⟩
    | some own => ⟨c.state, false, [(own, nick)], none, false⟩
  | .lobby_swap =>
    ⟨(c.state.clear_lobby).leave_queue, true, [], some none, false⟩
  | .lobby_list usernames =>
    ⟨(c.state.set_out_of_sync false).set_lobby usernames, true, [],
      some (if c.state.in_queue then none else some true), false⟩
  | .lobby_join username player_count player_cap =>
    if player_cap < 8 then ⟨c.state, false, [], none, false⟩
    else
      let s1 := (c.state.join_queue).add_to_lobby username
      let step : OverlayState × Bool :=
        if player_count ≠ s1.lobby_players.card then
          if player_count < s1.lobby_players.card then
            let s2 := (s1.clear_lobby).add_to_lobby username
            (s2, decide (player_count ≠ s2.lobby_players.card))
          else (s1, true)
        else (s1, false)
      ⟨step.1.set_out_of_sync step.2, true, [],
        if c.state.in_queue then none else some none, false⟩
  | .lobby_leave username =>
    ⟨(c.state.join_queue).remove_from_lobby username, true, [],
      if c.state.in_queue then none else some none, false⟩
  | .party_detach =>
    ⟨c.state.clear_party, true, [], none, false⟩
  | .party_attach username =>
    ⟨(c.state.clear_party).add_to_party username, true, [], none, false⟩
  | .party_join usernames =>
    ⟨usernames.foldl (fun s u => s.add_to_party u) c.state, true, [], none, false⟩
  | .party_leave usernames =>
    let own_listed :=
      match c.state.own_username with
      | some own => usernames.contains own
      | none => false
    if own_listed then ⟨c.state.clear_party, true, [], none, false⟩
    else
      ⟨usernames.foldl (fun s u => s.remove_from_party u) c.state, true, [], none, false⟩
  | .party_list_incoming =>
    ⟨c.state.clear_party, false, [], none, false⟩
  | .party_role_list _ usernames =>
    ⟨usernames.foldl (fun s u => s.add_to_party u) c.state, true, [], none, false⟩
  | .bedwars_game_starting_soon _ =>
    ⟨c.state, false, [], none, false⟩
  | .start_bedwars_game =>
    let denicks :=
      if c.autodenick_teammates then
        match autodenick_teammate c with
        | some a => [a]
        | none => []
      else []
    ⟨c.state.leave_queue, false, denicks, some none, false⟩
  | .bedwars_final_kill dead_player =>
    ⟨c.state.mark_dead dead_player, true, [], none, false⟩
  | .bedwars_disconnect username =>
    ⟨c.state.mark_dead username, true, [], none, false⟩
  | .bedwars_reconnect username =>
    ⟨c.state.mark_alive username, true, [], none, false⟩
  | .end_bedwars_game =>
    ⟨c.state.clear_lobby, true, [], none, true⟩
  | .whisper_command_set_nick username nick =>
    ⟨c.state, false, [(username, nick)], none, false⟩

/-! ### Helper lemmas on the state helpers -/

theorem own_username_foldl_add_to_party (l : List String) (s : OverlayState) :
    (l.foldl (fun s u => s.add_to_party u) s).own_username = s.own_username := by
  induction l generalizing s with
  | nil => rfl
  | cons a t ih => simpa [OverlayState.add_to_party] using ih (s.add_to_party a)

theorem own_username_foldl_remove_from_party (l : List String) (s : OverlayState) :
    (l.foldl (fun s u => s.remove_from_party u) s).own_username = s.own_username := by
  induction l generalizing s with
  | nil => rfl
  | cons a t ih => simpa [OverlayState.remove_from_party] using ih (s.remove_from_party a)

/-! ### Claim theorems about process_event -/

/-- C5: for every state whose own_username is set, processing PartyLeave with a
list of identities containing own_username clears the party entirely, whatever
other identities are listed, and reports redraw = true. -/
theorem party_leave_with_self_clears_party (c : Controller) (ids : List String)
    (u : String) (hown : c.state.own_username = some u) (hmem : u ∈ ids) :
    (process_event c (.party_leave ids)).state.party_members = ∅
  ∧ (process_event c (.party_leave ids)).redraw = true := by
  simp [process_event, hown, hmem, OverlayState.clear_party]

/-- C5 witness: a concrete state with own_username set, processing PartyLeave
listing the own username together with another member. -/
theorem party_leave_with_self_clears_party_witness :
    (process_event
        ⟨⟨some "Own", {"Own", "Mate"}, ∅, ∅, false, false⟩, false, false, none,
          fun _ => none⟩
        (.party_leave ["Mate", "Own"])).state.party_members = ∅
  ∧ (process_event
        ⟨⟨some "Own", {"Own", "Mate"}, ∅, ∅, false, false⟩, false, false, none,
          fun _ => none⟩
        (.party_leave ["Mate", "Own"])).redraw = true :=
  party_leave_with_self_clears_party _ _ "Own" rfl (by decide)

/-- C8: processing NewNickname with own_username unset returns the state
unchanged with redraw = false and performs no denick side effect; with
own_username set it performs exactly the denick side effect binding the nick to
the own username, and still returns the state unchanged with redraw = false. -/
theorem new_nickname_spec (c : Controller) (nick : String) :
    (c.state.own_username = none →
      process_event c (.new_nickname nick) = ⟨c.state, false, [], none, false⟩)
  ∧ (∀ u, c.state.own_username = some u →
      process_event c (.new_nickname nick) = ⟨c.state, false, [(u, nick)], none, false⟩) := by
  constructor
  · intro h
    simp [process_event, h]
  · intro u h
    simp [process_event, h]

/-- C8 witness: a concrete state with own_username set receiving NewNickname. -/
theorem new_nickname_spec_witness :
    process_event
        ⟨⟨some "Own", ∅, ∅, ∅, false, false⟩, false, false, none, fun _ => none⟩
        (.new_nickname "SomeNick")
      = ⟨⟨some "Own", ∅, ∅, ∅, false, false⟩, false, [("Own", "SomeNick")], none, false⟩ :=
  (new_nickname_spec _ "SomeNick").2 "Own" rfl

/-- C10: every event other than InitializeAs leaves own_username unchanged. -/
theorem process_event_preserves_own_username (c : Controller) (e : Event)
    (h : e.isInitAs = false) :
    (process_event c e).state.own_username = c.state.own_username := by
  cases e with
  | init_as username => simp [Event.isInitAs] at h
  | new_nickname nick =>
    cases hu : c.state.own_username <;> simp [process_event, hu]
  | lobby_swap =>
    simp [process_event, OverlayState.clear_lobby, OverlayState.leave_queue]
  | lobby_list usernames =>
    simp [process_event, OverlayState.set_out_of_sync, OverlayState.set_lobby]
  | lobby_join username player_count player_cap =>
    by_cases hcap : player_cap < 8 <;>
      simp only [process_event, hcap, if_true, if_false, reduceIte] <;>
      split <;>
      first
      | rfl
      | (split <;> rfl)
  | lobby_leave username =>
    simp [process_event, OverlayState.join_queue, OverlayState.remove_from_lobby]
  | party_detach => simp [process_event, OverlayState.clear_party]
  | party_attach username =>
    simp [process_event, OverlayState.clear_party, OverlayState.add_to_party]
  | party_join usernames =>
    simpa [process_event] using own_username_foldl_add_to_party usernames c.state
  | party_leave usernames =>
    simp only [process_event]
    split <;>
      simp [OverlayState.clear_party, own_username_foldl_remove_from_party]
  | party_list_incoming => simp [process_event, OverlayState.clear_party]
  | party_role_list role usernames =>
    simpa [process_event] using own_username_foldl_add_to_party usernames c.state
  | bedwars_game_starting_soon seconds => simp [process_event]
  | start_bedwars_game => simp [process_event, OverlayState.leave_queue]
  | bedwars_final_kill dead_player => simp [process_event, OverlayState.mark_dead]
  | bedwars_disconnect username => simp [process_event, OverlayState.mark_dead]
  | bedwars_reconnect username => simp [process_event, OverlayState.mark_alive]
  | end_bedwars_game => simp [process_event, OverlayState.clear_lobby]
  | whisper_command_set_nick username nick => simp [process_event]

/-- C10 witness: a lobby swap on a concrete state leaves own_username unchanged. -/
theorem process_event_preserves_own_username_witness :
    Event.lobby_swap.isInitAs = false
  ∧ (process_event
        ⟨⟨some "Own", ∅, {"A"}, ∅, true, false⟩, false, false, none, fun _ => none⟩
        .lobby_swap).state.own_username
      = some "Own" :=
  ⟨rfl, process_event_preserves_own_username _ .lobby_swap rfl⟩

/-- C2: on LobbyJoin with capacity at least 8, when the reported count differs
from the lobby size after adding the joining identity the out_of_sync flag is
set, except that when the reported count is strictly smaller the lobby is reset
to just the joining identity and out_of_sync is recomputed against the reported
count; when the counts agree out_of_sync is cleared, and the event always
requests a redraw. -/
theorem lobby_join_sync (c : Controller) (u : String) (count cap : Nat)
    (hcap : 8 ≤ cap) :
    (count ≠ (insert u c.state.lobby_players).card →
      (count < (insert u c.state.lobby_players).card →
          (process_event c (.lobby_join u count cap)).state.lobby_players = {u}
        ∧ (process_event c (.lobby_join u count cap)).state.out_of_sync
            = decide (count ≠ 1))
      ∧ (¬ count < (insert u c.state.lobby_players).card →
          (process_event c (.lobby_join u count cap)).state.out_of_sync = true))
  ∧ (count = (insert u c.state.lobby_players).card →
      (process_event c (.lobby_join u count cap)).state.out_of_sync = false)
  ∧ (process_event c (.lobby_join u count cap)).redraw = true := by
  have hlt : ¬ cap < 8 := by omega
  have hcard :
      ((((c.state.join_queue).add_to_lobby u).clear_lobby).add_to_lobby u).lobby_players
        = {u} := by
    simp [OverlayState.join_queue, OverlayState.add_to_lobby, OverlayState.clear_lobby]
  refine ⟨fun hne => ⟨fun hlt2 => ?_, fun hge => ?_⟩, fun heq => ?_, ?_⟩
  · have hs1 :
        (((c.state.join_queue).add_to_lobby u)).lobby_players
          = insert u c.state.lobby_players := by
      simp [OverlayState.join_queue, OverlayState.add_to_lobby]
    constructor
    · simp [process_event, hlt, OverlayState.set_out_of_sync, hs1, hne, hlt2, hcard]
    · simp [process_event, hlt, OverlayState.set_out_of_sync, hs1, hne, hlt2, hcard]
  · have hs1 :
        (((c.state.join_queue).add_to_lobby u)).lobby_players
          = insert u c.state.lobby_players := by
      simp [OverlayState.join_queue, OverlayState.add_to_lobby]
    simp [process_event, hlt, OverlayState.set_out_of_sync, hs1, hne, hge]
  · have hs1 :
        (((c.state.join_queue).add_to_lobby u)).lobby_players
          = insert u c.state.lobby_players := by
      simp [OverlayState.join_queue, OverlayState.add_to_lobby]
    simp [process_event, hlt, OverlayState.set_out_of_sync, hs1, heq]
  · simp only [process_event, hlt, reduceIte]

/-- C2 witness: the example from the spec, lobby of A, B and C, D joining with a
reported count of 1: the lobby resets to just D, out_of_sync clears, redraw. -/
theorem lobby_join_sync_witness :
    8 ≤ 16
  ∧ (process_event
        ⟨⟨some "Own", ∅, {"A", "B", "C"}, ∅, true, false⟩, false, false, none,
          fun _ => none⟩
        (.lobby_join "D" 1 16)).state.lobby_players = {"D"}
  ∧ (process_event
        ⟨⟨some "Own", ∅, {"A", "B", "C"}, ∅, true, false⟩, false, false, none,
          fun _ => none⟩
        (.lobby_join "D" 1 16)).state.out_of_sync = false
  ∧ (process_event
        ⟨⟨some "Own", ∅, {"A", "B", "C"}, ∅, true, false⟩, false, false, none,
          fun _ => none⟩
        (.lobby_join "D" 1 16)).redraw = true := by
  have h := lobby_join_sync
    ⟨⟨some "Own", ∅, {"A", "B", "C"}, ∅, true, false⟩, false, false, none,
      fun _ => none⟩
    "D" 1 16 (by omega)
  have h2 := (h.1 (by decide)).1 (by decide)
  exact ⟨by omega, h2.1, by simpa using h2.2, h.2.2⟩

/-! ### Autodenick (C1) -/

theorem filterMap_single_of_nodup {α β : Type} (l : List α) (f : α → Option β)
    (a : α) (n : β) (hnd : l.Nodup) (hmem : a ∈ l) (hfa : f a = some n)
    (hother : ∀ x ∈ l, x ≠ a → f x = none) :
    l.filterMap f = [n] := by
  induction l with
  | nil => cases hmem
  | cons b t ih =>
    rcases List.mem_cons.mp hmem with rfl | hmem2
    · rw [List.filterMap_cons_some hfa]
      have ht : t.filterMap f = [] := by
        refine List.filterMap_eq_nil_iff.mpr (fun x hx => ?_)
        refine hother x (List.mem_cons_of_mem _ hx) (fun hxa => ?_)
        exact (List.nodup_cons.mp hnd).1 (hxa ▸ hx)
      rw [ht]
    · have hb : f b = none := by
        refine hother b (List.mem_cons_self b t) (fun hba => ?_)
        subst hba
        exact (List.nodup_cons.mp hnd).1 hmem2
      rw [List.filterMap_cons_none hb]
      exact ih (List.nodup_cons.mp hnd).2 hmem2
        (fun x hx hne => hother x (List.mem_cons_of_mem _ hx) hne)

/-- When exactly one lobby player has a NickedPlayer cache entry, the lobby nick
scan returns exactly that nickname. -/
theorem lobby_nick_scan_single (c : Controller) (p n : String)
    (hmem : p ∈ c.state.lobby_players)
    (hfp : cache_entry_nick (c.cache p) = some n)
    (hother : ∀ x ∈ c.state.lobby_players, x ≠ p → cache_entry_nick (c.cache x) = none) :
    lobby_nick_scan c = [n] := by
  refine filterMap_single_of_nodup _ _ p n (Finset.sort_nodup _ _) ?_ hfp ?_
  · exact (Finset.mem_sort _).mpr hmem
  · intro x hx hne
    exact hother x ((Finset.mem_sort _).mp hx) hne

/-- C1 (amended): when additionally the state is not in queue, processing
StartBedwarsGame with autodenick enabled, a valid API key, the state in sync,
exactly one missing teammate, a full lobby of 8, 12 or 16 that equals the alive
set, and a non-pending long-term cache entry for every lobby player, performs
the denick assignment exactly once, binding the single unknown nickname to the
missing teammate; and when the scan finds two or more unknown nicknames no
assignment is performed. -/
theorem start_game_autodenick (c : Controller) (t : String)
    (hauto : c.autodenick_teammates = true)
    (hapi : c.api_key_invalid = false)
    (hq : c.state.in_queue = false)
    (hsync : c.state.out_of_sync = false)
    (hmiss : c.state.party_members \ c.state.lobby_players = {t})
    (hsize : c.state.lobby_players.card = 8 ∨ c.state.lobby_players.card = 12 ∨
      c.state.lobby_players.card = 16)
    (halive : c.state.lobby_players = c.state.alive_players)
    (hcached : ∀ p ∈ c.state.lobby_players,
      (c.cache p).isSome = true ∧ cache_entry_pending (c.cache p) = false) :
    (∀ n, lobby_nick_scan c = [n] →
      (process_event c .start_bedwars_game).denicks = [(t, n)])
  ∧ (2 ≤ (lobby_nick_scan c).length →
      (process_event c .start_bedwars_game).denicks = []) := by
  have hcond : (c.api_key_invalid || c.state.in_queue || c.state.out_of_sync) = false := by
    rw [hapi, hq, hsync]
    rfl
  have hsort : (c.state.party_members \ c.state.lobby_players).sort (· ≤ ·) = [t] := by
    rw [hmiss]
    exact Finset.sort_singleton _ t
  have hsize2 : ¬(c.state.lobby_players.card ≠ 8 ∧ c.state.lobby_players.card ≠ 12 ∧
      c.state.lobby_players.card ≠ 16) := by
    rcases hsize with h | h | h <;> simp [h]
  have halive2 : ¬(c.state.lobby_players ≠ c.state.alive_players) := by
    simp [halive]
  have hnone : ((c.state.lobby_players.sort (· ≤ ·)).any
      (fun p => (c.cache p).isNone)) = false := by
    rw [List.any_eq_false]
    intro x hx
    have hx2 := (hcached x ((Finset.mem_sort _).mp hx)).1
    simp [Option.isNone_eq_false_iff, Option.isSome_iff_ne_none.mp hx2]
  have hpend : ((c.state.lobby_players.sort (· ≤ ·)).any
      (fun p => cache_entry_pending (c.cache p))) = false := by
    rw [List.any_eq_false]
    intro x hx
    simp [(hcached x ((Finset.mem_sort _).mp hx)).2]
  have hchar : autodenick_teammate c =
      (match lobby_nick_scan c with
        | [n] => some (t, n)
        | _ => none) := by
    unfold autodenick_teammate
    rw [hcond, hsort]
    simp only [Bool.false_eq_true, if_false]
    rw [if_neg hsize2, if_neg halive2, hnone, hpend]
    simp only [Bool.false_eq_true, if_false]
  constructor
  · intro n hn
    simp only [process_event, hauto, if_true, hchar, hn]
  · intro hlen
    rcases hscan : lobby_nick_scan c with _ | ⟨a, _ | ⟨b, rest⟩⟩
    · rw [hscan] at hlen
      simp at hlen
    · rw [hscan] at hlen
      simp at hlen
    · simp only [process_event, hauto, if_true, hchar, hscan]

/-- Concrete controller for the autodenick claim: a full lobby of 8, seven known
players and the single unknown nick H, one missing teammate M, not in queue. -/
def autodenickController : Controller :=
  ⟨⟨some "A", {"M"}, {"A", "B", "C", "D", "E", "F", "G", "H"},
      {"A", "B", "C", "D", "E", "F", "G", "H"}, false, false⟩,
    false, true, none,
    fun p =>
      if p = "H" then some (.nicked "H")
      else if p = "A" ∨ p = "B" ∨ p = "C" ∨ p = "D" ∨ p = "E" ∨ p = "F" ∨ p = "G" then
        some (.known p p 0 ⟨0, 0, none, false⟩ none)
      else none⟩

/-- The same controller, but still marked as in queue. -/
def autodenickControllerQueued : Controller :=
  { autodenickController with
    state := { autodenickController.state with in_queue := true } }

/-- C1 witness: on the concrete full lobby of 8 with exactly one unknown nick H
and the single missing teammate M, StartBedwarsGame performs exactly the one
assignment binding H to M. -/
theorem start_game_autodenick_witness :
    autodenickController.autodenick_teammates = true
  ∧ autodenickController.api_key_invalid = false
  ∧ autodenickController.state.in_queue = false
  ∧ autodenickController.state.out_of_sync = false
  ∧ autodenickController.state.party_members \ autodenickController.state.lobby_players
      = {"M"}
  ∧ autodenickController.state.lobby_players.card = 8
  ∧ autodenickController.state.lobby_players = autodenickController.state.alive_players
  ∧ (∀ p ∈ autodenickController.state.lobby_players,
      (autodenickController.cache p).isSome = true
      ∧ cache_entry_pending (autodenickController.cache p) = false)
  ∧ lobby_nick_scan autodenickController = ["H"]
  ∧ (process_event autodenickController .start_bedwars_game).denicks = [("M", "H")] := by
  have hscan : lobby_nick_scan autodenickController = ["H"] :=
    lobby_nick_scan_single autodenickController "H" "H" (by decide) rfl (by decide)
  refine ⟨rfl, rfl, rfl, rfl, by decide, by decide, by decide, by decide, hscan, ?_⟩
  exact (start_game_autodenick autodenickController "M" rfl rfl rfl rfl (by decide)
    (Or.inl (by decide)) (by decide) (by decide)).1 "H" hscan

/-- C1 counterexample: the claim as stated omits the in-queue abort condition of
autodenick_teammate. On a controller satisfying every condition the claim lists
(autodenick enabled, valid API key, in sync, one missing teammate, full lobby of
8 equal to the alive set, non-pending cache entries with exactly one
NickedPlayer) but which is still marked in queue, StartBedwarsGame performs no
denick assignment at all. -/
theorem start_game_autodenick_counterexample :
    autodenickControllerQueued.autodenick_teammates = true
  ∧ autodenickControllerQueued.api_key_invalid = false
  ∧ autodenickControllerQueued.state.out_of_sync = false
  ∧ autodenickControllerQueued.state.party_members
      \ autodenickControllerQueued.state.lobby_players = {"M"}
  ∧ autodenickControllerQueued.state.lobby_players.card = 8
  ∧ autodenickControllerQueued.state.lobby_players
      = autodenickControllerQueued.state.alive_players
  ∧ (∀ p ∈ autodenickControllerQueued.state.lobby_players,
      (autodenickControllerQueued.cache p).isSome = true
      ∧ cache_entry_pending (autodenickControllerQueued.cache p) = false)
  ∧ lobby_nick_scan autodenickControllerQueued = ["H"]
  ∧ (process_event autodenickControllerQueued .start_bedwars_game).denicks = [] := by
  have hscan : lobby_nick_scan autodenickControllerQueued = ["H"] :=
    lobby_nick_scan_single autodenickControllerQueued "H" "H" (by decide) rfl (by decide)
  exact ⟨rfl, rfl, rfl, by decide, by decide, by decide, by decide, hscan, rfl⟩

/-! ### RateLimiter (C3) -/

/-- Modelled from the spec: the acquisition rule of the sliding window rate
limiter of spec section 4.3 (prism/ratelimiting.py is not among the sources).
The recorded list holds the most recent limit acquisition timestamps in
ascending order, the only ones that can still fall inside the window at a later
serialized acquisition. When fewer than limit timestamps are recorded the
acquisition proceeds at now; otherwise it blocks until the oldest recorded
timestamp exits the window, which the maximum also resolves to now whenever
that oldest timestamp has already left the window. -/
def rl_acquire_time (limit window : Nat) (recorded : List Nat) (now : Nat) : Nat :=
  if recorded.length < limit then now
  else
    match recorded with
    | [] => now
    | oldest :: _ => max now (oldest + window)

/-- Modelled from the spec: one serialized acquisition. Blocking and recording
are a single critical section, so an acquisition requested at req effectively
starts at the later of req and the previous acquisition time (the clock); it
acquires at rl_acquire_time, records its timestamp and keeps only the most
recent limit entries. -/
def rl_step (limit window : Nat) (recorded : List Nat) (clock req : Nat) :
    List Nat × Nat :=
  let now := max req clock
  let a := rl_acquire_time limit window recorded now
  ((recorded ++ [a]).drop (recorded.length + 1 - limit), a)

/-- Modelled from the spec: run a list of acquisition requests through the rate
limiter in order, returning the acquisition times. -/
def rl_run (limit window : Nat) (recorded : List Nat) (clock : Nat) :
    List Nat → List Nat
  | [] => []
  | req :: reqs =>
    (rl_step limit window recorded clock req).2 ::
      rl_run limit window (rl_step limit window recorded clock req).1
        (rl_step limit window recorded clock req).2 reqs

/-- Acquisition times of a request sequence against a fresh rate limiter. -/
def runAcquisitions (limit window : Nat) (reqs : List Nat) : List Nat :=
  rl_run limit window [] 0 reqs

theorem rl_acquire_time_ge (limit window : Nat) (recorded : List Nat) (now : Nat) :
    now ≤ rl_acquire_time limit window recorded now := by
  unfold rl_acquire_time
  split
  · exact Nat.le_refl _
  · cases recorded with
    | nil => exact Nat.le_refl _
    | cons o r => exact Nat.le_max_left _ _

theorem rl_run_window (limit window : Nat) (hl : 0 < limit) :
    ∀ (reqs recorded : List Nat) (clock : Nat),
      recorded.Pairwise (· ≤ ·) →
      (∀ x ∈ recorded, x ≤ clock) →
      recorded.length ≤ limit →
      ∀ i, i + limit < (recorded ++ rl_run limit window recorded clock reqs).length →
        (recorded ++ rl_run limit window recorded clock reqs).getD i 0 + window ≤
          (recorded ++ rl_run limit window recorded clock reqs).getD (i + limit) 0 := by
  intro reqs
  induction reqs with
  | nil =>
    intro recorded clock _ _ hlen i hi
    simp only [rl_run, List.append_nil] at hi ⊢
    omega
  | cons r rs ih =>
    intro recorded clock hsorted hbound hlen i hi
    have hnow : clock ≤ max r clock := Nat.le_max_right _ _
    have hga : max r clock ≤ rl_acquire_time limit window recorded (max r clock) :=
      rl_acquire_time_ge _ _ _ _
    set a := rl_acquire_time limit window recorded (max r clock) with hadef
    have hxa : ∀ x ∈ recorded, x ≤ a :=
      fun x hx => le_trans (hbound x hx) (le_trans hnow hga)
    have hsorted1 : (recorded ++ [a]).Pairwise (· ≤ ·) := by
      rw [List.pairwise_append]
      exact ⟨hsorted, List.pairwise_singleton _ _, fun x hx y hy => by
        rw [List.mem_singleton] at hy
        exact hy ▸ hxa x hx⟩
    have hstep : rl_step limit window recorded clock r =
        ((recorded ++ [a]).drop (recorded.length + 1 - limit), a) := rfl
    have hrun : rl_run limit window recorded clock (r :: rs) =
        a :: rl_run limit window ((recorded ++ [a]).drop (recorded.length + 1 - limit))
          a rs := by
      rw [rl_run, hstep]
    rcases Nat.lt_or_ge recorded.length limit with hlt | hge
    · -- the record is not yet full: nothing is dropped
      have hd : recorded.length + 1 - limit = 0 := by omega
      have hsorted2 : ((recorded ++ [a]).drop (recorded.length + 1 - limit)).Pairwise
          (· ≤ ·) := by
        rw [hd, List.drop_zero]
        exact hsorted1
      have hbound2 : ∀ x ∈ (recorded ++ [a]).drop (recorded.length + 1 - limit),
          x ≤ a := by
        rw [hd, List.drop_zero]
        intro x hx
        rcases List.mem_append.mp hx with hx2 | hx2
        · exact hxa x hx2
        · rw [List.mem_singleton] at hx2
          exact hx2.le
      have hlen2 : ((recorded ++ [a]).drop (recorded.length + 1 - limit)).length
          ≤ limit := by
        simp [hd]
        omega
      have hlist : recorded ++ rl_run limit window recorded clock (r :: rs) =
          ((recorded ++ [a]).drop (recorded.length + 1 - limit)) ++
            rl_run limit window ((recorded ++ [a]).drop (recorded.length + 1 - limit))
              a rs := by
        rw [hrun, hd, List.drop_zero, List.append_assoc]
        rfl
      rw [hlist] at hi ⊢
      exact ih _ a hsorted2 hbound2 hlen2 i hi
    · -- the record is full: the oldest entry is dropped
      have hfull : recorded.length = limit := le_antisymm hlen hge
      cases recorded with
      | nil =>
        rw [List.length_nil] at hfull
        omega
      | cons o rest =>
        have horest : ∀ x ∈ rest, x ≤ a :=
          fun x hx => hxa x (List.mem_cons_of_mem _ hx)
        have ha2 : a = max (max r clock) (o + window) := by
          rw [hadef]
          unfold rl_acquire_time
          rw [if_neg (by omega)]
        have hd : (o :: rest).length + 1 - limit = 1 := by
          rw [hfull]
          omega
        have hdrop : ((o :: rest) ++ [a]).drop ((o :: rest).length + 1 - limit) =
            rest ++ [a] := by
          rw [hd, List.cons_append, List.drop_succ_cons, List.drop_zero]
        have hsorted2 : (rest ++ [a]).Pairwise (· ≤ ·) := by
          refine List.Pairwise.sublist ?_ hsorted1
          rw [List.cons_append]
          exact List.sublist_cons_self _ _
        have hbound2 : ∀ x ∈ rest ++ [a], x ≤ a := by
          intro x hx
          rcases List.mem_append.mp hx with hx2 | hx2
          · exact horest x hx2
          · rw [List.mem_singleton] at hx2
            exact hx2.le
        have hlen2 : (rest ++ [a]).length ≤ limit := by
          simp only [List.length_append, List.length_singleton]
          simp only [List.length_cons] at hfull
          omega
        have hrest : rest.length = limit - 1 := by
          simp only [List.length_cons] at hfull
          omega
        have hlist : (o :: rest) ++ rl_run limit window (o :: rest) clock (r :: rs) =
            o :: ((rest ++ [a]) ++ rl_run limit window (rest ++ [a]) a rs) := by
          rw [hrun, hdrop, List.cons_append, List.append_assoc]
          rfl
        rw [hlist] at hi ⊢
        cases i with
        | zero =>
          -- the dropped oldest entry against the new acquisition
          have hlen3 : limit - 1 < (rest ++ [a]).length := by
            simp only [List.length_append, List.length_singleton]
            omega
          rw [List.getD_cons_zero, Nat.zero_add]
          have hsucc : limit = (limit - 1) + 1 := by omega
          rw [hsucc, List.getD_cons_succ]
          rw [List.getD_append _ _ _ _ hlen3]
          rw [List.getD_append_right _ _ _ _ (by omega : rest.length ≤ limit - 1)]
          have : limit - 1 - rest.length = 0 := by omega
          rw [this, List.getD_cons_zero]
          rw [ha2]
          exact Nat.le_max_right _ _
        | succ j =>
          rw [List.getD_cons_succ]
          have hshift : j + 1 + limit = (j + limit) + 1 := by omega
          rw [hshift, List.getD_cons_succ]
          refine ih _ a hsorted2 hbound2 hlen2 j ?_
          simp only [List.length_cons] at hi
          omega

/-- C3: for a rate limiter with positive limit and positive window, in the
sorted sequence of acquisition times produced by any request sequence, each
acquisition is at least a full window later than the acquisition limit places
before it, so at most limit acquisitions begin in any window; in particular
with limit 2 and window 10, three acquisitions all requested at time 0 begin at
times 0, 0 and 10. -/
theorem ratelimiter_window_guarantee (limit window : Nat) (reqs : List Nat)
    (hl : 0 < limit) (hw : 0 < window) :
    (∀ i, i + limit < (runAcquisitions limit window reqs).length →
      (runAcquisitions limit window reqs).getD i 0 + window ≤
        (runAcquisitions limit window reqs).getD (i + limit) 0)
  ∧ runAcquisitions 2 10 [0, 0, 0] = [0, 0, 10] := by
  constructor
  · intro i hi
    have h := rl_run_window limit window hl reqs [] 0 (List.Pairwise.nil)
      (by intro x hx; cases hx) (by simp) i
    simp only [List.nil_append] at h
    exact h hi
  · rfl

/-- C3 witness: the concrete schedule of the spec example, with the window
property instantiated between the first and the third acquisition. -/
theorem ratelimiter_window_guarantee_witness :
    0 < 2 ∧ 0 < 10 ∧ 0 + 2 < (runAcquisitions 2 10 [0, 0, 0]).length
  ∧ (runAcquisitions 2 10 [0, 0, 0]).getD 0 0 + 10 ≤
      (runAcquisitions 2 10 [0, 0, 0]).getD (0 + 2) 0 :=
  ⟨by decide, by decide, by decide,
    (ratelimiter_window_guarantee 2 10 [0, 0, 0] (by decide) (by decide)).1 0 (by decide)⟩

/-! ### NickDatabase (C7, C9), from examples/sidelay/nick_database.py -/

/-- One nick table: a Python dict of nick to uuid, embedded as an association
list looked up with List.lookup. -/
abbrev NickTable := List (String × String)

/-- Error classes of nick_database.py: DatabaseReadError, DatabaseDecodeError
and InvalidDatabaseError. -/
inductive DatabaseLoadError
  | readError
  | decodeError
  | invalidDatabase
deriving DecidableEq

/-- Outcome of opening and parsing one database path: the inputs the per-path
checks of read_databases (nick_database.py lines 26-53) branch on. -/
inductive FileOutcome
  | wrongSuffix
  | unreadable
  | malformed
  | notMapping
  | badValues
  | parsed (table : NickTable)
deriving DecidableEq

namespace NickDatabase

/-- Per-path checks of read_databases in source order: a non-json suffix raises
DatabaseDecodeError, an unreadable file DatabaseReadError, undecodable json
DatabaseDecodeError, and a non-mapping or non-string values
InvalidDatabaseError. -/
def read_one_database : FileOutcome → Except DatabaseLoadError NickTable
  | .wrongSuffix => .error .decodeError
  | .unreadable => .error .readError
  | .malformed => .error .decodeError
  | .notMapping => .error .invalidDatabase
  | .badValues => .error .invalidDatabase
  | .parsed t => .ok t

/-- Translation of read_databases (nick_database.py lines 26-53): parse every
path in order; the first failure raises out of the whole loop. -/
def read_databases : List FileOutcome → Except DatabaseLoadError (List NickTable)
  | [] => .ok []
  | p :: ps =>
    match read_one_database p with
    | .error e => .error e
    | .ok t =>
      match read_databases ps with
      | .error e => .error e
      | .ok ts => .ok (t :: ts)

/-- Translation of NickDatabase.from_disk (nick_database.py lines 69-78): read
the secondary databases from the given paths and prepend the already-parsed
default database. -/
def from_disk (database_paths : List FileOutcome) (default_database : NickTable) :
    Except DatabaseLoadError (List NickTable) :=
  match read_databases database_paths with
  | .error e => .error e
  | .ok secondary_databases => .ok (default_database :: secondary_databases)

/-- Translation of NickDatabase.knows (nick_database.py lines 80-82). -/
def knows (databases : List NickTable) (nick : String) : Bool :=
  databases.any (fun t => (t.lookup nick).isSome)

/-- Translation of NickDatabase.denick (nick_database.py lines 88-94): the first
table in list order containing the nick wins; the ValueError raised when no
table knows the nick is embedded as none. -/
def denick (databases : List NickTable) (nick : String) : Option String :=
  match databases with
  | [] => none
  | t :: ts =>
    match t.lookup nick with
    | some uuid => some uuid
    | none => denick ts nick

/-- Translation of NickDatabase.get (nick_database.py lines 100-106): under the
database lock, return the denick result when some table knows the nick,
otherwise none. -/
def get (databases : List NickTable) (nick : String) : Option String :=
  if knows databases nick then denick databases nick else none

theorem denick_append_of_none (pre rest : List NickTable) (nick : String)
    (h : ∀ t ∈ pre, t.lookup nick = none) :
    denick (pre ++ rest) nick = denick rest nick := by
  induction pre with
  | nil => rfl
  | cons a l ih =>
    rw [List.cons_append, denick, h a (List.mem_cons_self a l)]
    exact ih (fun t ht => h t (List.mem_cons_of_mem _ ht))

theorem read_databases_error (paths : List FileOutcome)
    (h : ∃ p ∈ paths, ∃ e, read_one_database p = .error e) :
    ∃ e, read_databases paths = .error e := by
  induction paths with
  | nil =>
    obtain ⟨p, hp, _⟩ := h
    cases hp
  | cons a l ih =>
    rw [read_databases]
    cases ha : read_one_database a with
    | error e => exact ⟨e, rfl⟩
    | ok t =>
      obtain ⟨p, hp, e, he⟩ := h
      have hpl : p ∈ l := by
        rcases List.mem_cons.mp hp with rfl | hpl
        · rw [ha] at he
          cases he
        · exact hpl
      obtain ⟨e2, he2⟩ := ih ⟨p, hpl, e, he⟩
      rw [he2]
      exact ⟨e2, rfl⟩

theorem read_databases_ok (paths : List FileOutcome)
    (h : ∀ p ∈ paths, ∃ t, read_one_database p = .ok t) :
    ∃ ts, read_databases paths = .ok ts := by
  induction paths with
  | nil => exact ⟨[], rfl⟩
  | cons a l ih =>
    obtain ⟨t, ht⟩ := h a (List.mem_cons_self a l)
    obtain ⟨ts, hts⟩ := ih (fun p hp => h p (List.mem_cons_of_mem _ hp))
    rw [read_databases, ht, hts]
    exact ⟨t :: ts, rfl⟩

end NickDatabase

/-- C7 counterexample: the claim that a failing supplementary table is contained
to that table is false. With a readable first supplementary table, an unreadable
second one and a readable third, from_disk raises DatabaseReadError: no tables
at all are loaded, rather than all but the failing one. -/
theorem supplementary_failure_aborts_from_disk :
    NickDatabase.from_disk
        [.parsed [("nickA", "uuidA")], .unreadable, .parsed [("nickB", "uuidB")]]
        [("defaultNick", "uuidD")]
      = .error .readError := rfl

/-- C7 (amended): a failure to load any supplementary nickname database table
raises that table's database error out of from_disk, aborting the loading of
every table; the default database is passed to from_disk already parsed, so
from_disk itself never fails because of it, and when every supplementary table
loads, the result is the default table followed by the supplementary tables. -/
theorem from_disk_spec (paths : List FileOutcome) (default_database : NickTable) :
    ((∃ p ∈ paths, ∃ e, NickDatabase.read_one_database p = .error e) →
      ∃ e, NickDatabase.from_disk paths default_database = .error e)
  ∧ ((∀ p ∈ paths, ∃ t, NickDatabase.read_one_database p = .ok t) →
      ∃ ts, NickDatabase.from_disk paths default_database
        = .ok (default_database :: ts)) := by
  constructor
  · intro h
    obtain ⟨e, he⟩ := NickDatabase.read_databases_error paths h
    rw [NickDatabase.from_disk, he]
    exact ⟨e, rfl⟩
  · intro h
    obtain ⟨ts, hts⟩ := NickDatabase.read_databases_ok paths h
    rw [NickDatabase.from_disk, hts]
    exact ⟨ts, rfl⟩

/-- C7 witness: one good table before and one after an unreadable one; from_disk
fails instead of keeping the good tables. -/
theorem from_disk_spec_witness :
    ((∃ p ∈ ([.parsed [("nickA", "uuidA")], .unreadable,
          .parsed [("nickB", "uuidB")]] : List FileOutcome),
        ∃ e, NickDatabase.read_one_database p = .error e)
      → ∃ e, NickDatabase.from_disk
          [.parsed [("nickA", "uuidA")], .unreadable, .parsed [("nickB", "uuidB")]]
          [("defaultNick", "uuidD")] = .error e)
  ∧ ∃ e, NickDatabase.from_disk
      [.parsed [("nickA", "uuidA")], .unreadable, .parsed [("nickB", "uuidB")]]
      [("defaultNick", "uuidD")] = .error e := by
  have h := (from_disk_spec
    [.parsed [("nickA", "uuidA")], .unreadable, .parsed [("nickB", "uuidB")]]
    [("defaultNick", "uuidD")]).1
  exact ⟨h, h ⟨.unreadable, by decide, .readError, rfl⟩⟩

/-- C9: lookup through the ordered table list is first-match-wins: whenever the
tables before some table do not contain the nick and that table maps it to a
uuid, get returns that uuid (with the default table first in from_disk order,
it is consulted before every supplementary table); and when no table contains
the nick, get returns none. -/
theorem nick_database_first_match (databases : List NickTable) (nick : String) :
    (∀ pre t post uuid, databases = pre ++ t :: post →
      (∀ t2 ∈ pre, t2.lookup nick = none) → t.lookup nick = some uuid →
      NickDatabase.get databases nick = some uuid)
  ∧ ((∀ t ∈ databases, t.lookup nick = none) →
      NickDatabase.get databases nick = none) := by
  constructor
  · intro pre t post uuid hdb hpre ht
    subst hdb
    have hknows : NickDatabase.knows (pre ++ t :: post) nick = true := by
      rw [NickDatabase.knows, List.any_eq_true]
      refine ⟨t, List.mem_append_right _ (List.mem_cons_self _ _), ?_⟩
      rw [ht]
      rfl
    rw [NickDatabase.get, if_pos hknows,
      NickDatabase.denick_append_of_none pre _ nick hpre, NickDatabase.denick, ht]
  · intro h
    have hknows : NickDatabase.knows databases nick = false := by
      rw [NickDatabase.knows, List.any_eq_false]
      intro t htmem
      rw [h t htmem]
      simp
    rw [NickDatabase.get, if_neg (by rw [hknows]; exact Bool.false_ne_true)]

/-- C9 witness: a nick present in the default table and in a supplementary
table resolves to the uuid of the default table; an unknown nick yields none. -/
theorem nick_database_first_match_witness :
    NickDatabase.get [[("AmazingNick", "uuid1")], [("AmazingNick", "uuid2")]]
        "AmazingNick" = some "uuid1"
  ∧ NickDatabase.get [[("AmazingNick", "uuid1")], [("AmazingNick", "uuid2")]]
        "UnknownNick" = none := by
  constructor
  · exact (nick_database_first_match _ "AmazingNick").1 []
      [("AmazingNick", "uuid1")] [[("AmazingNick", "uuid2")]] "uuid1" rfl
      (by intro t2 ht2; cases ht2) rfl
  · exact (nick_database_first_match _ "UnknownNick").2 (by decide)

/-! ### Sorting the stats list (C6), from prism/overlay/player.py -/

/-- Sort column names matched by rate_player (player.py lines 153-171). -/
inductive ColumnName
  | username
  | stars
  | fkdr
  | wlr
  | winstreak
deriving DecidableEq

/-- Stat sort values: rationals extended with the two float infinities that
rate_player uses for hidden stats and unknown winstreaks. -/
inductive StatValue
  | negInf
  | val (q : ℚ)
  | posInf
deriving DecidableEq

/-- Comparison of stat values, negInf below every value and posInf above. -/
def StatValue.le : StatValue → StatValue → Bool
  | .negInf, _ => true
  | .val _, .negInf => false
  | .val a, .val b => decide (a ≤ b)
  | .val _, .posInf => true
  | .posInf, .posInf => true
  | .posInf, _ => false

theorem StatValue.le_trans (a b c : StatValue) (hab : StatValue.le a b = true)
    (hbc : StatValue.le b c = true) : StatValue.le a c = true := by
  cases a <;> cases b <;> cases c <;> simp_all [StatValue.le]
  exact hab.trans hbc

theorem StatValue.le_total2 (a b : StatValue) :
    (StatValue.le a b || StatValue.le b a) = true := by
  cases a <;> cases b <;> simp [StatValue.le, le_total]

theorem StatValue.le_antisymm2 (a b : StatValue) (hab : StatValue.le a b = true)
    (hba : StatValue.le b a = true) : a = b := by
  cases a <;> cases b <;> simp_all [StatValue.le]
  exact le_antisymm hab hba

/-- The sort key produced by rate_player: (is_enemy, stats_hidden, stat). -/
abbrev SortKey := Bool × Bool × StatValue

/-- Bool comparison with false below true, as Python compares booleans. -/
def bool_le (a b : Bool) : Bool := !a || b

/-- Lexicographic comparison of sort keys, as Python compares tuples. -/
def SortKey.le : SortKey → SortKey → Bool
  | (e1, h1, s1), (e2, h2, s2) =>
    if e1 = e2 then
      if h1 = h2 then StatValue.le s1 s2
      else bool_le h1 h2
    else bool_le e1 e2

/-- Strict comparison of sort keys. -/
def SortKey.lt (a b : SortKey) : Bool := SortKey.le a b && !(SortKey.le b a)

theorem SortKey.le_trans2 (a b c : SortKey) (hab : SortKey.le a b = true)
    (hbc : SortKey.le b c = true) : SortKey.le a c = true := by
  obtain ⟨e1, h1, s1⟩ := a
  obtain ⟨e2, h2, s2⟩ := b
  obtain ⟨e3, h3, s3⟩ := c
  cases e1 <;> cases e2 <;> cases e3 <;> cases h1 <;> cases h2 <;> cases h3 <;>
    simp_all [SortKey.le, bool_le] <;>
    exact StatValue.le_trans _ _ _ hab hbc

theorem SortKey.le_total_key (a b : SortKey) :
    (SortKey.le a b || SortKey.le b a) = true := by
  obtain ⟨e1, h1, s1⟩ := a
  obtain ⟨e2, h2, s2⟩ := b
  cases e1 <;> cases e2 <;> cases h1 <;> cases h2 <;>
    simp_all [SortKey.le, bool_le] <;>
    simpa using StatValue.le_total2 s1 s2

theorem SortKey.le_antisymm_key (a b : SortKey) (hab : SortKey.le a b = true)
    (hba : SortKey.le b a = true) : a = b := by
  obtain ⟨e1, h1, s1⟩ := a
  obtain ⟨e2, h2, s2⟩ := b
  cases e1 <;> cases e2 <;> cases h1 <;> cases h2 <;>
    simp_all [SortKey.le, bool_le] <;>
    exact StatValue.le_antisymm2 _ _ hab hba

theorem SortKey.le_fst (a b : SortKey) (h : SortKey.le a b = true) :
    bool_le a.1 b.1 = true := by
  obtain ⟨e1, h1, s1⟩ := a
  obtain ⟨e2, h2, s2⟩ := b
  cases e1 <;> cases e2 <;> simp_all [SortKey.le, bool_le]

/-- Translation of rate_player (player.py lines 141-173): the key function used
for sorting. The first component records whether the player is an enemy (not a
party member), the second whether their stats are hidden, the third the value
of the selected stat column, 0 for the username column, negative infinity for
players without stats, and positive infinity for an unknown winstreak. -/
def rate_player (player : Player) (party_members : Finset String)
    (column : ColumnName) : SortKey :=
  (decide (player.username ∉ party_members), player.stats_hidden,
    match player, column with
    | _, .username => .val 0
    | .known _ _ stars _ _, .stars => .val stars
    | .known _ _ _ stats _, .fkdr => .val stats.fkdr
    | .known _ _ _ stats _, .wlr => .val stats.wlr
    | .known _ _ _ stats _, .winstreak =>
      match stats.winstreak with
      | some w => .val (w : ℚ)
      | none => .posInf
    | _, _ => .negInf)

/-- First sorting pass of sort_players: ascending by username. -/
def username_le (p q : Player) : Bool := decide (p.username ≤ q.username)

/-- Second sorting pass of sort_players: descending by the rate_player key.
A stable sort with this comparison is Python sorted with reverse set. -/
def rate_ge (party_members : Finset String) (column : ColumnName)
    (p q : Player) : Bool :=
  SortKey.le (rate_player q party_members column) (rate_player p party_members column)

/-- Translation of sort_players (player.py lines 176-193): a stable sort by
username ascending followed by a stable sort by the rate_player key descending,
the two nested stable Python sorts of the source. -/
def sort_players (players : List Player) (party_members : Finset String)
    (column : ColumnName) : List Player :=
  (players.mergeSort username_le).mergeSort (rate_ge party_members column)

/-- C6: the sorted player list is a permutation of the input, ordered by the
rate_player key (is_enemy, stats_hidden, stat) descending with ties broken
ascending by display name, and every party member comes after every non-party
member. -/
theorem sort_players_spec (players : List Player) (party_members : Finset String)
    (column : ColumnName) :
    (sort_players players party_members column).Perm players
  ∧ (sort_players players party_members column).Pairwise (fun p q =>
      SortKey.lt (rate_player q party_members column)
          (rate_player p party_members column) = true
      ∨ (rate_player p party_members column = rate_player q party_members column
          ∧ p.username ≤ q.username))
  ∧ (sort_players players party_members column).Pairwise (fun p q =>
      p.username ∈ party_members → q.username ∈ party_members) := by
  have trans1 : ∀ a b c : Player, username_le a b → username_le b c →
      username_le a c := by
    intro a b c hab hbc
    simp only [username_le, decide_eq_true_eq] at hab hbc ⊢
    exact le_trans hab hbc
  have total1 : ∀ a b : Player, (username_le a b || username_le b a) = true := by
    intro a b
    simp only [username_le, Bool.or_eq_true, decide_eq_true_eq]
    exact le_total _ _
  have trans2 : ∀ a b c : Player, rate_ge party_members column a b →
      rate_ge party_members column b c → rate_ge party_members column a c := by
    intro a b c hab hbc
    exact SortKey.le_trans2 _ _ _ hbc hab
  have total2 : ∀ a b : Player,
      (rate_ge party_members column a b || rate_ge party_members column b a) = true := by
    intro a b
    exact SortKey.le_total_key _ _
  have hmid : (players.mergeSort username_le).Pairwise
      (fun a b => username_le a b = true) :=
    List.sorted_mergeSort trans1 total1 players
  have hperm : (sort_players players party_members column).Perm players := by
    unfold sort_players
    exact (List.mergeSort_perm _ _).trans (List.mergeSort_perm _ _)
  have henum : ((players.mergeSort username_le).enum.mergeSort
        (List.enumLE (rate_ge party_members column))).map (fun x => x.2)
      = sort_players players party_members column := by
    unfold sort_players
    exact List.mergeSort_enum
  have hE : ((players.mergeSort username_le).enum.mergeSort
        (List.enumLE (rate_ge party_members column))).Pairwise
      (fun a b => List.enumLE (rate_ge party_members column) a b = true) :=
    List.sorted_mergeSort (List.enumLE_trans trans2) (List.enumLE_total total2) _
  have hpair : (sort_players players party_members column).Pairwise (fun p q =>
      SortKey.lt (rate_player q party_members column)
          (rate_player p party_members column) = true
      ∨ (rate_player p party_members column = rate_player q party_members column
          ∧ p.username ≤ q.username)) := by
    rw [← henum, List.pairwise_map]
    refine List.Pairwise.imp_of_mem ?_ hE
    rintro ⟨i, p⟩ ⟨j, q⟩ ha hb hab
    have hamem : (i, p) ∈ (players.mergeSort username_le).enum :=
      List.mem_mergeSort.mp ha
    have hbmem : (j, q) ∈ (players.mergeSort username_le).enum :=
      List.mem_mergeSort.mp hb
    rw [List.mk_mem_enum_iff_getElem?] at hamem hbmem
    obtain ⟨hilt, higet⟩ := List.getElem?_eq_some_iff.mp hamem
    obtain ⟨hjlt, hjget⟩ := List.getElem?_eq_some_iff.mp hbmem
    by_cases h1 : rate_ge party_members column p q = true
    · by_cases h2 : rate_ge party_members column q p = true
      · -- equivalent keys: stability gives the index order, the first pass the names
        have hij : i ≤ j := by
          simp only [List.enumLE, h1, h2, if_true, decide_eq_true_eq] at hab
          exact hab
        have hkey : rate_player p party_members column
            = rate_player q party_members column :=
          SortKey.le_antisymm_key _ _ h2 h1
        refine Or.inr ⟨hkey, ?_⟩
        rcases Nat.lt_or_ge i j with hlt | hge
        · have := (List.pairwise_iff_getElem.mp hmid) i j hilt hjlt hlt
          rw [higet, hjget] at this
          simpa [username_le] using this
        · have heq : i = j := le_antisymm hij hge
          subst heq
          have hpq : p = q := by
            rw [← higet, ← hjget]
          rw [hpq]
      · -- strictly larger key first
        refine Or.inl ?_
        rw [SortKey.lt]
        simp only [Bool.and_eq_true, Bool.not_eq_true]
        exact ⟨h1, by simpa using h2⟩
    · -- enumLE forces the first comparison to hold
      simp only [List.enumLE, h1, if_false] at hab
      cases hab
  refine ⟨hperm, hpair, ?_⟩
  refine hpair.imp ?_
  intro p q hpq hp
  rcases hpq with hlt | ⟨heq, _⟩
  · have hle : SortKey.le (rate_player q party_members column)
        (rate_player p party_members column) = true := by
      rw [SortKey.lt] at hlt
      simp only [Bool.and_eq_true] at hlt
      exact hlt.1
    have hfst := SortKey.le_fst _ _ hle
    have hpfst : (rate_player p party_members column).1 = false := by
      simp [rate_player, hp]
    rw [hpfst] at hfst
    have hqfst : (rate_player q party_members column).1 = false := by
      cases hq : (rate_player q party_members column).1
      · rfl
      · rw [hq] at hfst
        simp [bool_le] at hfst
    by_contra hq
    have : (rate_player q party_members column).1 = true := by
      simp [rate_player, hq]
    rw [this] at hqfst
    cases hqfst
  · have hpfst : (rate_player p party_members column).1 = false := by
      simp [rate_player, hp]
    have hqfst : (rate_player q party_members column).1 = false := by
      rw [← heq]
      exact hpfst
    by_contra hq
    have : (rate_player q party_members column).1 = true := by
      simp [rate_player, hq]
    rw [this] at hqfst
    cases hqfst

end SpacesOverlay
